import Mathlib

/-!
Shallow embedding of the QueryBuilder component of the repository
(file src/src/querybuilder/QueryBuilder.ts), together with theorems
settling the specification claims about it.

The TypeScript class QueryBuilder holds eight mutable fields; every
method either reads them or replaces them, so each method is embedded
as a pure function from the builder record to a new builder record
(methods returning `this` for chaining return the updated record,
terminal accessors return their value).  Method names that collide
with Lean keywords are suffixed with C: `match` becomes `matchC`,
`where` becomes `whereC`, `with` becomes `withC`, `return` becomes
`returnC`.  JavaScript objects used as the parameter map
(Record<string, any>) are embedded as association lists over an
arbitrary value type V with unique keys, insertion order preserved,
and last-write-wins updates in place, matching JavaScript property
assignment and Object.assign.  Template-literal splicing of a number
is embedded as `toString` on Int.  Array.prototype.join with the
newline separator is embedded as `joinNL`; `filter(Boolean)` on an
array of strings keeps exactly the nonempty ones.
-/

/-- Insertion of a key into a JavaScript-object-like association list:
assignment to an existing key updates its value in place (keeping the
key's position), assignment to a fresh key appends it at the end. -/
def setKey {V : Type} (m : List (String × V)) (k : String) (v : V) :
    List (String × V) :=
  if m.any (fun p => p.1 == k) then
    m.map (fun p => if p.1 == k then (k, v) else p)
  else
    m ++ [(k, v)]

/-- Object.assign target src: every key of src is assigned into tgt in
order, with last-write-wins semantics. -/
def assignAll {V : Type} (tgt src : List (String × V)) : List (String × V) :=
  src.foldl (fun acc p => setKey acc p.1 p.2) tgt

/-- Array.prototype.join with separator a newline, as used by build. -/
def joinNL : List String → String
  | [] => ""
  | [s] => s
  | s :: rest => s ++ "\n" ++ joinNL rest

/-- The state of a QueryBuilder instance: the eight private fields of
the TypeScript class.  V is the (opaque) type of parameter values. -/
structure QueryBuilder (V : Type) where
  matchClauses : List String
  whereClauses : List String
  withClauses : List String
  returnClause : String
  orderByClause : String
  skipValue : Option Int
  limitValue : Option Int
  parameters : List (String × V)

/-- A freshly constructed QueryBuilder: all buffers empty, both
singular slots empty strings, both pagination values null, parameter
map empty. -/
def emptyQB {V : Type} : QueryBuilder V :=
  ⟨[], [], [], "", "", none, none, []⟩

namespace QueryBuilder

variable {V : Type}

/-- Method match: pushes a MATCH fragment onto matchClauses. -/
def matchC (b : QueryBuilder V) (pattern : String) : QueryBuilder V :=
  { b with matchClauses := b.matchClauses ++ ["MATCH " ++ pattern] }

/-- Method optionalMatch: pushes an OPTIONAL MATCH fragment onto
matchClauses. -/
def optionalMatch (b : QueryBuilder V) (pattern : String) : QueryBuilder V :=
  { b with matchClauses := b.matchClauses ++ ["OPTIONAL MATCH " ++ pattern] }

/-- Method where: pushes a WHERE fragment onto whereClauses. -/
def whereC (b : QueryBuilder V) (condition : String) : QueryBuilder V :=
  { b with whereClauses := b.whereClauses ++ ["WHERE " ++ condition] }

/-- Method andWhere: behaves as where when whereClauses is empty,
otherwise pushes an AND fragment. -/
def andWhere (b : QueryBuilder V) (condition : String) : QueryBuilder V :=
  if b.whereClauses.length = 0 then
    b.whereC condition
  else
    { b with whereClauses := b.whereClauses ++ ["AND " ++ condition] }

/-- Method orWhere: behaves as where when whereClauses is empty,
otherwise pushes an OR fragment. -/
def orWhere (b : QueryBuilder V) (condition : String) : QueryBuilder V :=
  if b.whereClauses.length = 0 then
    b.whereC condition
  else
    { b with whereClauses := b.whereClauses ++ ["OR " ++ condition] }

/-- Method with: pushes a WITH fragment onto withClauses. -/
def withC (b : QueryBuilder V) (expression : String) : QueryBuilder V :=
  { b with withClauses := b.withClauses ++ ["WITH " ++ expression] }

/-- Method return: overwrites the singular RETURN slot. -/
def returnC (b : QueryBuilder V) (expression : String) : QueryBuilder V :=
  { b with returnClause := "RETURN " ++ expression }

/-- Method orderBy: overwrites the singular ORDER BY slot. -/
def orderBy (b : QueryBuilder V) (expression : String) : QueryBuilder V :=
  { b with orderByClause := "ORDER BY " ++ expression }

/-- Method skip: stores the count. -/
def skip (b : QueryBuilder V) (count : Int) : QueryBuilder V :=
  { b with skipValue := some count }

/-- Method limit: stores the count. -/
def limit (b : QueryBuilder V) (count : Int) : QueryBuilder V :=
  { b with limitValue := some count }

/-- Method setParameter: property assignment into the parameter map. -/
def setParameter (b : QueryBuilder V) (name : String) (value : V) :
    QueryBuilder V :=
  { b with parameters := setKey b.parameters name value }

/-- Method build, embedded together with its (absent) effect on the
instance: the body only reads fields — it builds a local parts array,
conditionally pushes the SKIP and LIMIT lines, drops falsy (empty)
elements and joins with newlines — so the post-state is the pre-state
unchanged. -/
def buildM (b : QueryBuilder V) : String × QueryBuilder V :=
  let parts := b.matchClauses ++ b.whereClauses ++ b.withClauses
      ++ [b.returnClause, b.orderByClause]
  let parts :=
    match b.skipValue with
    | some n => parts ++ ["SKIP " ++ toString n]
    | none => parts
  let parts :=
    match b.limitValue with
    | some n => parts ++ ["LIMIT " ++ toString n]
    | none => parts
  (joinNL (parts.filter (fun s => s != "")), b)

/-- The string returned by method build. -/
def build (b : QueryBuilder V) : String :=
  (b.buildM).1

/-- Method getParameters: returns the contents of the parameter map
(the shallow-copy aspect is modelled separately with an explicit
object store, see getParametersH below). -/
def getParameters (b : QueryBuilder V) : List (String × V) :=
  b.parameters

/-- Method clear: resets every field to its initial value. -/
def clear (_b : QueryBuilder V) : QueryBuilder V :=
  { matchClauses := []
    whereClauses := []
    withClauses := []
    returnClause := ""
    orderByClause := ""
    skipValue := none
    limitValue := none
    parameters := [] }

/-- Method subquery: runs the callback on a fresh builder, renders it,
pushes the parenthesised render onto this builder's matchClauses, and
Object.assigns the sub-builder's parameters into this builder's. -/
def subquery (b : QueryBuilder V) (callback : QueryBuilder V → QueryBuilder V) :
    QueryBuilder V :=
  let subBuilder := callback emptyQB
  let sub := subBuilder.build
  { b with
    matchClauses := b.matchClauses ++ ["(" ++ sub ++ ")"]
    parameters := assignAll b.parameters subBuilder.getParameters }

/-- Method union: renders this builder and the other one, clears this
builder, pushes the combined text as a single matchClauses entry, and
Object.assigns the other builder's parameters. -/
def union (b other : QueryBuilder V) : QueryBuilder V :=
  let currentQuery := b.build
  let unionQuery := other.build
  let cleared := b.clear
  { cleared with
    matchClauses := cleared.matchClauses ++ [currentQuery ++ "\nUNION\n" ++ unionQuery]
    parameters := assignAll cleared.parameters other.getParameters }

/-- Method unionAll: as union with the UNION ALL keyword. -/
def unionAll (b other : QueryBuilder V) : QueryBuilder V :=
  let currentQuery := b.build
  let unionQuery := other.build
  let cleared := b.clear
  { cleared with
    matchClauses := cleared.matchClauses ++ [currentQuery ++ "\nUNION ALL\n" ++ unionQuery]
    parameters := assignAll cleared.parameters other.getParameters }

end QueryBuilder

/-- The raw parts array assembled by build before the falsy filter:
match buffer, where buffer, with buffer, the two singular slots, then
the conditional SKIP and LIMIT lines. -/
def rawParts {V : Type} (b : QueryBuilder V) : List String :=
  let parts := b.matchClauses ++ b.whereClauses ++ b.withClauses
      ++ [b.returnClause, b.orderByClause]
  let parts :=
    match b.skipValue with
    | some n => parts ++ ["SKIP " ++ toString n]
    | none => parts
  match b.limitValue with
  | some n => parts ++ ["LIMIT " ++ toString n]
  | none => parts

/-- The parts that build actually joins: the raw parts with empty
(falsy) elements dropped. -/
def buildParts {V : Type} (b : QueryBuilder V) : List String :=
  (rawParts b).filter (fun s => s != "")

/-- Splitting a character sequence at newline characters: the lines of
a rendered query exactly as a newline-splitting consumer sees them. -/
def splitNL : List Char → List (List Char)
  | [] => [[]]
  | c :: cs =>
    if c = '\n' then [] :: splitNL cs
    else
      match splitNL cs with
      | [] => [[c]]
      | r :: rs => (c :: r) :: rs

/-- Predicate: the string contains no newline character. -/
def noNL (s : String) : Prop := ∀ c ∈ s.data, c ≠ '\n'

/-- Boolean form of noNL, used in decidable side conditions. -/
def noNLb (s : String) : Bool := s.data.all (fun c => c != '\n')

/-- Predicate: no line of the string starts with the character ch. -/
def linesAvoid (ch : Char) (s : String) : Prop :=
  ∀ l ∈ splitNL s.data, l.head? ≠ some ch

/-- Invariant for builder states reachable without the pagination call
excluded by ch ('S' excludes skip, 'L' excludes limit): no line of any
stored fragment starts with ch, and the corresponding pagination slot
is unset. -/
def QueryBuilder.avoidInv {V : Type} (ch : Char) (b : QueryBuilder V) : Prop :=
  (∀ s ∈ b.matchClauses, linesAvoid ch s) ∧
  (∀ s ∈ b.whereClauses, linesAvoid ch s) ∧
  (∀ s ∈ b.withClauses, linesAvoid ch s) ∧
  linesAvoid ch b.returnClause ∧
  linesAvoid ch b.orderByClause ∧
  (ch = 'S' → b.skipValue = none) ∧
  (ch = 'L' → b.limitValue = none)

/-- One clause-adding call of the restricted family considered by the
buffer-ordering claim: match, optionalMatch, where, with. -/
inductive ClauseCall where
  | cMatch (pattern : String)
  | cOptionalMatch (pattern : String)
  | cWhere (condition : String)
  | cWith (expression : String)

/-- The effect of one clause-adding call on a builder. -/
def ClauseCall.applyTo {V : Type} (b : QueryBuilder V) : ClauseCall → QueryBuilder V
  | .cMatch p => b.matchC p
  | .cOptionalMatch p => b.optionalMatch p
  | .cWhere c => b.whereC c
  | .cWith e => b.withC e

/-- Running a sequence of clause-adding calls in call order. -/
def runClauseCalls {V : Type} (b : QueryBuilder V) (cs : List ClauseCall) :
    QueryBuilder V :=
  cs.foldl ClauseCall.applyTo b

/-- The keyword-prefixed fragment a clause-adding call appends. -/
def ClauseCall.frag : ClauseCall → String
  | .cMatch p => "MATCH " ++ p
  | .cOptionalMatch p => "OPTIONAL MATCH " ++ p
  | .cWhere c => "WHERE " ++ c
  | .cWith e => "WITH " ++ e

/-- Does the call write to the match buffer? -/
def ClauseCall.isMatchFam : ClauseCall → Bool
  | .cMatch _ => true
  | .cOptionalMatch _ => true
  | _ => false

/-- Does the call write to the where buffer? -/
def ClauseCall.isWhereFam : ClauseCall → Bool
  | .cWhere _ => true
  | _ => false

/-- Does the call write to the with buffer? -/
def ClauseCall.isWithFam : ClauseCall → Bool
  | .cWith _ => true
  | _ => false

/-- One call of the full public mutating interface, with composition
operands given as the call sequences that produced them on a fresh
builder.  This enumerates every way a builder state is reachable. -/
inductive Call (V : Type) where
  | cMatch (pattern : String)
  | cOptionalMatch (pattern : String)
  | cWhere (condition : String)
  | cAndWhere (condition : String)
  | cOrWhere (condition : String)
  | cWith (expression : String)
  | cReturn (expression : String)
  | cOrderBy (expression : String)
  | cSkip (count : Int)
  | cLimit (count : Int)
  | cSetParameter (name : String) (value : V)
  | cClear
  | cSubquery (sub : List (Call V))
  | cUnion (other : List (Call V))
  | cUnionAll (other : List (Call V))

mutual

/-- The effect of one public call on a builder; composition operands
are materialised by running their own call sequences on a fresh
builder. -/
def applyCall {V : Type} (b : QueryBuilder V) : Call V → QueryBuilder V
  | .cMatch p => b.matchC p
  | .cOptionalMatch p => b.optionalMatch p
  | .cWhere c => b.whereC c
  | .cAndWhere c => b.andWhere c
  | .cOrWhere c => b.orWhere c
  | .cWith e => b.withC e
  | .cReturn e => b.returnC e
  | .cOrderBy e => b.orderBy e
  | .cSkip n => b.skip n
  | .cLimit n => b.limit n
  | .cSetParameter k v => b.setParameter k v
  | .cClear => b.clear
  | .cSubquery sub => b.subquery (fun q => runCalls q sub)
  | .cUnion other => b.union (runCalls emptyQB other)
  | .cUnionAll other => b.unionAll (runCalls emptyQB other)

/-- Running a call sequence in order. -/
def runCalls {V : Type} (b : QueryBuilder V) : List (Call V) → QueryBuilder V
  | [] => b
  | c :: rest => runCalls (applyCall b c) rest

end

mutual

/-- A call sequence avoids ch when every fragment argument it supplies
is newline-free and it never performs the pagination call excluded by
ch ('S' excludes skip, 'L' excludes limit), recursively including the
call sequences of subquery and union operands. -/
def Call.avoids {V : Type} (ch : Char) : Call V → Bool
  | .cMatch p => noNLb p
  | .cOptionalMatch p => noNLb p
  | .cWhere c => noNLb c
  | .cAndWhere c => noNLb c
  | .cOrWhere c => noNLb c
  | .cWith e => noNLb e
  | .cReturn e => noNLb e
  | .cOrderBy e => noNLb e
  | .cSkip _ => ch != 'S'
  | .cLimit _ => ch != 'L'
  | .cSetParameter _ _ => true
  | .cClear => true
  | .cSubquery sub => avoidsList ch sub
  | .cUnion other => avoidsList ch other
  | .cUnionAll other => avoidsList ch other

/-- Pointwise extension of Call.avoids to call sequences. -/
def avoidsList {V : Type} (ch : Char) : List (Call V) → Bool
  | [] => true
  | c :: rest => c.avoids ch && avoidsList ch rest

end

/-- A store of parameter objects, modelling JavaScript reference
semantics for the map returned by getParameters: objects live at
addresses and can be mutated in place. -/
structure PStore (V : Type) where
  objs : List (List (String × V))

/-- The contents of the object at address a. -/
def PStore.getObj {V : Type} (h : PStore V) (a : Nat) : List (String × V) :=
  h.objs.getD a []

/-- Allocation of a fresh object with the given contents; returns its
address and the extended store. -/
def PStore.alloc {V : Type} (h : PStore V) (m : List (String × V)) :
    Nat × PStore V :=
  (h.objs.length, ⟨h.objs ++ [m]⟩)

/-- In-place mutation of the object at address a. -/
def PStore.writeObj {V : Type} (h : PStore V) (a : Nat) (m : List (String × V)) :
    PStore V :=
  ⟨h.objs.set a m⟩

/-- A builder whose parameter map lives in the object store at the
address paddr (the other seven fields need no reference semantics for
the claims considered). -/
structure RefBuilder (V : Type) where
  base : QueryBuilder V
  paddr : Nat

/-- Method getParameters with reference semantics: it allocates a
fresh object holding a shallow copy of the builder's parameter map and
returns the fresh address. -/
def getParametersH {V : Type} (h : PStore V) (b : RefBuilder V) :
    Nat × PStore V :=
  h.alloc (h.getObj b.paddr)

/-- Method build on a store-resident builder: renders the builder with
its current parameter-map contents. -/
def buildH {V : Type} (h : PStore V) (b : RefBuilder V) : String :=
  QueryBuilder.build { b.base with parameters := h.getObj b.paddr }

/-- The call A.union(B) on two builders held in a store of builder
instances at positions i and j: only position i is written. -/
def unionStep {V : Type} (s : List (QueryBuilder V)) (i j : Nat) :
    List (QueryBuilder V) :=
  s.set i ((s.getD i emptyQB).union (s.getD j emptyQB))

/-- The call A.unionAll(B) on two builders held in a store of builder
instances at positions i and j: only position i is written. -/
def unionAllStep {V : Type} (s : List (QueryBuilder V)) (i j : Nat) :
    List (QueryBuilder V) :=
  s.set i ((s.getD i emptyQB).unionAll (s.getD j emptyQB))

/-- The builder produced by the subquery scenario of the specification:
match, where, a subquery configured with match and return, then
return. -/
def c2Scenario : QueryBuilder String :=
  (((((emptyQB).matchC "(p:Person)").whereC "p.age > 18").subquery
      (fun sub => (sub.matchC "(p)-[:OWNS]->(c:Car)").returnC "count(c) AS carCount")).returnC
    "p, carCount")

theorem build_eq_joinNL {V : Type} (b : QueryBuilder V) :
    b.build = joinNL (buildParts b) := rfl

theorem noNLb_iff {s : String} : noNLb s = true ↔ noNL s := by
  simp [noNLb, noNL, List.all_eq_true]

theorem noNL_append {s t : String} (hs : noNL s) (ht : noNL t) : noNL (s ++ t) := by
  intro c hc
  rw [String.data_append, List.mem_append] at hc
  rcases hc with hc | hc
  · exact hs c hc
  · exact ht c hc

theorem splitNL_ne_nil : ∀ l : List Char, splitNL l ≠ []
  | [] => by simp [splitNL]
  | c :: cs => by
    simp only [splitNL]
    split
    · simp
    · split <;> simp

theorem splitNL_noNL : ∀ {l : List Char}, (∀ c ∈ l, c ≠ '\n') → splitNL l = [l]
  | [], _ => rfl
  | c :: cs, h => by
    have hc : c ≠ '\n' := h c (by simp)
    have hcs : ∀ x ∈ cs, x ≠ '\n' := fun x hx => h x (by simp [hx])
    simp only [splitNL, if_neg hc, splitNL_noNL hcs]

theorem splitNL_cons_newline (cs : List Char) :
    splitNL ('\n' :: cs) = [] :: splitNL cs := by
  simp [splitNL]

theorem splitNL_cons_of_ne {c : Char} {cs r : List Char} {rs : List (List Char)}
    (hc : c ≠ '\n') (hr : splitNL cs = r :: rs) :
    splitNL (c :: cs) = (c :: r) :: rs := by
  unfold splitNL
  rw [if_neg hc, hr]

theorem splitNL_surjOn : ∀ cs : List Char, ∃ r rs, splitNL cs = r :: rs := by
  intro cs
  cases h : splitNL cs with
  | nil => exact absurd h (splitNL_ne_nil cs)
  | cons r rs => exact ⟨r, rs, rfl⟩

theorem splitNL_append_newline (a b : List Char) :
    splitNL (a ++ '\n' :: b) = splitNL a ++ splitNL b := by
  induction a with
  | nil => simp [splitNL_cons_newline, splitNL]
  | cons c cs ih =>
    by_cases hc : c = '\n'
    · subst hc
      rw [List.cons_append, splitNL_cons_newline, splitNL_cons_newline, ih,
        List.cons_append]
    · obtain ⟨r, rs, hr⟩ := splitNL_surjOn cs
      have hr2 : splitNL (cs ++ '\n' :: b) = r :: (rs ++ splitNL b) := by
        rw [ih, hr, List.cons_append]
      rw [List.cons_append, splitNL_cons_of_ne hc hr2, splitNL_cons_of_ne hc hr,
        List.cons_append]

theorem splitNL_joinNL : ∀ (parts : List String), parts ≠ [] →
    splitNL (joinNL parts).data = parts.flatMap (fun p => splitNL p.data)
  | [], h => absurd rfl h
  | [p], _ => by simp [joinNL]
  | p :: q :: rest, _ => by
    have ih := splitNL_joinNL (q :: rest) (by simp)
    show splitNL ((p ++ "\n" ++ joinNL (q :: rest))).data = _
    rw [String.data_append, String.data_append]
    have hnl : ("\n" : String).data = ['\n'] := rfl
    rw [hnl, List.append_assoc, List.singleton_append, splitNL_append_newline, ih]
    simp

theorem mem_splitNL_build {V : Type} {b : QueryBuilder V} {p : String}
    (hp : p ∈ buildParts b) (hnl : noNL p) :
    p.data ∈ splitNL (b.build).data := by
  rw [build_eq_joinNL, splitNL_joinNL _ (List.ne_nil_of_mem hp)]
  exact List.mem_flatMap.mpr ⟨p, hp, by rw [splitNL_noNL hnl]; simp⟩

theorem setKey_cons_ne {V : Type} (k1 : String) (v1 : V) (tgt : List (String × V))
    (k : String) (v : V) (h : k1 ≠ k) :
    setKey ((k1, v1) :: tgt) k v = (k1, v1) :: setKey tgt k v := by
  have hb : (k1 == k) = false := by simp [h]
  by_cases ha : tgt.any (fun p => p.1 == k)
  · simp [setKey, ha, hb, h]
  · simp [setKey, ha, hb, h]

theorem assignAll_cons_ne {V : Type} (k : String) (v : V) :
    ∀ (src tgt : List (String × V)), (∀ p ∈ src, p.1 ≠ k) →
      assignAll ((k, v) :: tgt) src = (k, v) :: assignAll tgt src
  | [], _, _ => rfl
  | p :: src', tgt, h => by
    have hp : p.1 ≠ k := h p (by simp)
    have hsrc : ∀ q ∈ src', q.1 ≠ k := fun q hq => h q (by simp [hq])
    show assignAll (setKey ((k, v) :: tgt) p.1 p.2) src' = _
    rw [show setKey ((k, v) :: tgt) p.1 p.2 = (k, v) :: setKey tgt p.1 p.2 from
      setKey_cons_ne k v tgt p.1 p.2 (fun heq => hp heq.symm)]
    exact assignAll_cons_ne k v src' (setKey tgt p.1 p.2) hsrc

theorem assignAll_nil_eq {V : Type} :
    ∀ (m : List (String × V)), (m.map Prod.fst).Nodup → assignAll [] m = m
  | [], _ => rfl
  | (k, v) :: rest, h => by
    have h1 : k ∉ rest.map Prod.fst := (List.nodup_cons.mp (by simpa using h)).1
    have h2 : (rest.map Prod.fst).Nodup := (List.nodup_cons.mp (by simpa using h)).2
    have hk : ∀ q ∈ rest, q.1 ≠ k := by
      intro q hq heq
      exact h1 (heq ▸ List.mem_map_of_mem Prod.fst hq)
    show assignAll (setKey [] k v) rest = _
    rw [show setKey [] k v = [(k, v)] from rfl,
      show ([(k, v)] : List (String × V)) = (k, v) :: [] from rfl,
      assignAll_cons_ne k v rest [] hk, assignAll_nil_eq rest h2]

/-- C2 (code_bug): on the subquery scenario the code renders the
subquery fragment with the inner MATCH keyword kept and places it in
the match buffer, which prints before the WHERE fragment, so build()
returns a string different from the one the claim (and the repository's
own test) states. -/
theorem c2_subquery_scenario_diverges :
    c2Scenario.build
        = "MATCH (p:Person)\n(MATCH (p)-[:OWNS]->(c:Car)\nRETURN count(c) AS carCount)\nWHERE p.age > 18\nRETURN p, carCount"
      ∧ c2Scenario.build
        ≠ "MATCH (p:Person)\nWHERE p.age > 18\n((p)-[:OWNS]->(c:Car)\nRETURN count(c) AS carCount)\nRETURN p, carCount" := by
  exact ⟨rfl, by decide⟩

/-- C5: with an empty WHERE buffer both andWhere and orWhere behave
exactly as where; with a non-empty WHERE buffer they append the
AND- or OR-prefixed condition to the WHERE buffer. -/
theorem c5_andWhere_orWhere_first_call (V : Type) (b : QueryBuilder V) (c : String) :
    (b.whereClauses = [] → b.andWhere c = b.whereC c ∧ b.orWhere c = b.whereC c) ∧
    (b.whereClauses ≠ [] →
      b.andWhere c = { b with whereClauses := b.whereClauses ++ ["AND " ++ c] } ∧
      b.orWhere c = { b with whereClauses := b.whereClauses ++ ["OR " ++ c] }) := by
  constructor
  · intro h
    constructor <;> simp [QueryBuilder.andWhere, QueryBuilder.orWhere, h]
  · intro h
    have hlen : ¬b.whereClauses.length = 0 := by simpa [List.length_eq_zero] using h
    constructor <;> simp [QueryBuilder.andWhere, QueryBuilder.orWhere, hlen]

theorem c5_witness :
    (emptyQB (V := Nat)).andWhere "x" = (emptyQB (V := Nat)).whereC "x" :=
  ((c5_andWhere_orWhere_first_call Nat emptyQB "x").1 rfl).1

/-- C7: build mutates nothing (the embedded method body returns the
instance state unchanged, since the source body contains no field
assignment), and two consecutive builds return identical strings. -/
theorem c7_build_pure_and_idempotent (V : Type) (b : QueryBuilder V) :
    (b.buildM).2 = b ∧ (((b.buildM).2).buildM).1 = (b.buildM).1 :=
  ⟨rfl, rfl⟩

/-- C3: union renders both builders, fully resets the receiver, leaves
exactly one match-buffer entry holding the two renders joined by the
UNION (or UNION ALL) keyword line, and afterwards the receiver's
parameter map equals the other builder's parameter map. -/
theorem c3_union_resets_and_combines (V : Type) (A B : QueryBuilder V)
    (h : (B.parameters.map Prod.fst).Nodup) :
    A.union B = ⟨[A.build ++ "\nUNION\n" ++ B.build], [], [], "", "", none, none, B.parameters⟩ ∧
    A.unionAll B = ⟨[A.build ++ "\nUNION ALL\n" ++ B.build], [], [], "", "", none, none, B.parameters⟩ := by
  constructor <;>
    simp [QueryBuilder.union, QueryBuilder.unionAll, QueryBuilder.clear,
      QueryBuilder.getParameters, assignAll_nil_eq B.parameters h]

theorem c3_witness :
    ((emptyQB (V := Nat)).matchC "(p:Person)").union ((emptyQB (V := Nat)).setParameter "b" 2)
      = ⟨[(((emptyQB (V := Nat)).matchC "(p:Person)").build) ++ "\nUNION\n"
            ++ (((emptyQB (V := Nat)).setParameter "b" 2).build)],
          [], [], "", "", none, none, ((emptyQB (V := Nat)).setParameter "b" 2).parameters⟩ :=
  (c3_union_resets_and_combines Nat _ _ (by decide)).1

/-- C6: union and unionAll on a store of builder instances write only
the receiver's cell: the other builder's entire state (all eight
fields) is unchanged. -/
theorem c6_union_leaves_other_untouched (V : Type) (s : List (QueryBuilder V))
    (i j : Nat) (hij : i ≠ j) :
    (unionStep s i j).getD j emptyQB = s.getD j emptyQB ∧
    (unionAllStep s i j).getD j emptyQB = s.getD j emptyQB := by
  unfold unionStep unionAllStep
  constructor <;>
    simp [List.getD_eq_getElem?_getD, List.getElem?_set_ne hij]

theorem c6_witness :
    (unionStep [emptyQB (V := Nat), (emptyQB (V := Nat)).matchC "(n)"] 0 1).getD 1 emptyQB
      = [emptyQB (V := Nat), (emptyQB (V := Nat)).matchC "(n)"].getD 1 emptyQB :=
  (c6_union_leaves_other_untouched Nat _ 0 1 (by decide)).1

/-- C8: getParameters allocates a fresh object whose contents equal the
builder's internal parameter map but whose address is distinct from
it, so mutating the returned object changes neither the contents a
later getParameters call copies nor the result of build. -/
theorem c8_getParameters_returns_copy (V : Type) (h : PStore V) (b : RefBuilder V)
    (hlt : b.paddr < h.objs.length) :
    ((getParametersH h b).2).getObj ((getParametersH h b).1) = h.getObj b.paddr
    ∧ (getParametersH h b).1 ≠ b.paddr
    ∧ ∀ m' : List (String × V),
        (((getParametersH h b).2.writeObj ((getParametersH h b).1) m').getObj b.paddr
            = h.getObj b.paddr)
        ∧ (((getParametersH ((getParametersH h b).2.writeObj ((getParametersH h b).1) m') b).2).getObj
              ((getParametersH ((getParametersH h b).2.writeObj ((getParametersH h b).1) m') b).1)
            = h.getObj b.paddr)
        ∧ buildH ((getParametersH h b).2.writeObj ((getParametersH h b).1) m') b = buildH h b := by
  have hcopy : ((getParametersH h b).2).getObj ((getParametersH h b).1) = h.getObj b.paddr := by
    show (h.objs ++ [h.getObj b.paddr]).getD h.objs.length [] = _
    rw [List.getD_eq_getElem?_getD, List.getElem?_concat_length]
    rfl
  have hne : (getParametersH h b).1 ≠ b.paddr :=
    fun heq => absurd (heq ▸ hlt) (lt_irrefl _)
  have hwrite : ∀ m' : List (String × V),
      ((getParametersH h b).2.writeObj ((getParametersH h b).1) m').getObj b.paddr
        = h.getObj b.paddr := by
    intro m'
    have hne' : h.objs.length ≠ b.paddr := Nat.ne_of_gt hlt
    show ((h.objs ++ [h.getObj b.paddr]).set h.objs.length m').getD b.paddr [] = _
    rw [List.getD_eq_getElem?_getD, List.getElem?_set_ne hne',
      List.getElem?_append, if_pos hlt]
    show _ = h.objs.getD b.paddr []
    rw [List.getD_eq_getElem?_getD]
  refine ⟨hcopy, hne, fun m' => ⟨hwrite m', ?_, rfl⟩⟩
  show (((getParametersH h b).2.writeObj ((getParametersH h b).1) m').objs
      ++ [((getParametersH h b).2.writeObj ((getParametersH h b).1) m').getObj b.paddr]).getD
      ((getParametersH h b).2.writeObj ((getParametersH h b).1) m').objs.length [] = _
  rw [List.getD_eq_getElem?_getD, List.getElem?_concat_length]
  exact hwrite m'

theorem data_eq_nil_iff {s : String} : s.data = [] ↔ s = "" :=
  ⟨fun h => String.ext h, fun h => h ▸ rfl⟩

theorem append_ne_empty_left {s : String} (t : String) (hs : s.data ≠ []) :
    s ++ t ≠ "" := by
  intro heq
  have h2 : (s ++ t).data = [] := by rw [heq]
  rw [String.data_append] at h2
  exact hs (List.append_eq_nil.mp h2).1

theorem frag_ne_empty (c : ClauseCall) : ClauseCall.frag c ≠ "" := by
  cases c <;> exact append_ne_empty_left _ (by decide)

theorem filter_ne_empty_of_all {l : List String} (h : ∀ s ∈ l, s ≠ "") :
    l.filter (fun s => s != "") = l :=
  List.filter_eq_self.mpr (fun a ha => by simpa [bne_iff_ne] using h a ha)

theorem runClauseCalls_state {V : Type} : ∀ (cs : List ClauseCall) (b : QueryBuilder V),
    runClauseCalls b cs = { b with
      matchClauses := b.matchClauses ++ (cs.filter ClauseCall.isMatchFam).map ClauseCall.frag
      whereClauses := b.whereClauses ++ (cs.filter ClauseCall.isWhereFam).map ClauseCall.frag
      withClauses := b.withClauses ++ (cs.filter ClauseCall.isWithFam).map ClauseCall.frag }
  | [], b => by simp [runClauseCalls]
  | c :: rest, b => by
    have ih := runClauseCalls_state rest (ClauseCall.applyTo b c)
    show runClauseCalls (ClauseCall.applyTo b c) rest = _
    rw [ih]
    cases c <;>
      simp [ClauseCall.applyTo, ClauseCall.frag, ClauseCall.isMatchFam,
        ClauseCall.isWhereFam, ClauseCall.isWithFam, QueryBuilder.matchC,
        QueryBuilder.optionalMatch, QueryBuilder.whereC, QueryBuilder.withC,
        List.filter_cons]

theorem buildParts_no_pagination {V : Type} (b : QueryBuilder V)
    (hs : b.skipValue = none) (hl : b.limitValue = none) :
    buildParts b
      = (b.matchClauses ++ b.whereClauses ++ b.withClauses
          ++ [b.returnClause, b.orderByClause]).filter (fun s => s != "") := by
  unfold buildParts rawParts
  rw [hs, hl]

/-- C1: for any sequence of clause-adding calls (match, optionalMatch,
where, with) on a fresh builder, build() is the newline-join of the
keyword-prefixed fragments, all match-buffer fragments first, then all
where-buffer fragments, then all with-buffer fragments, insertion
order kept within each buffer; the empty return and order-by slots are
dropped before joining and contribute no blank line. -/
theorem c1_build_is_ordered_join (V : Type) (cs : List ClauseCall) :
    QueryBuilder.build (runClauseCalls (emptyQB (V := V)) cs)
      = joinNL ((cs.filter ClauseCall.isMatchFam).map ClauseCall.frag
          ++ (cs.filter ClauseCall.isWhereFam).map ClauseCall.frag
          ++ (cs.filter ClauseCall.isWithFam).map ClauseCall.frag) := by
  rw [runClauseCalls_state, build_eq_joinNL, buildParts_no_pagination _ rfl rfl]
  congr 1
  have hfr : ∀ (l : List ClauseCall) (pred : ClauseCall → Bool),
      ((l.filter pred).map ClauseCall.frag).filter (fun s => s != "")
        = (l.filter pred).map ClauseCall.frag := by
    intro l pred
    apply filter_ne_empty_of_all
    intro s hs
    obtain ⟨c, _, rfl⟩ := List.mem_map.mp hs
    exact frag_ne_empty c
  simp [List.filter_append, hfr, emptyQB]

theorem toDigitsCore_mem (b : Nat) : ∀ (f n : Nat) (acc : List Char) (c : Char),
    c ∈ Nat.toDigitsCore b f n acc → c ∈ acc ∨ ∃ d, c = Nat.digitChar d
  | 0, n, acc, c, h => by
    unfold Nat.toDigitsCore at h
    exact Or.inl h
  | f + 1, n, acc, c, h => by
    unfold Nat.toDigitsCore at h
    by_cases hq : n / b = 0
    · rw [if_pos hq] at h
      rcases List.mem_cons.mp h with h | h
      · exact Or.inr ⟨n % b, h⟩
      · exact Or.inl h
    · rw [if_neg hq] at h
      rcases toDigitsCore_mem b f (n / b) ((n % b).digitChar :: acc) c h with h | h
      · rcases List.mem_cons.mp h with h | h
        · exact Or.inr ⟨n % b, h⟩
        · exact Or.inl h
      · exact Or.inr h

theorem digitChar_ne_newline (d : Nat) : Nat.digitChar d ≠ '\n' := by
  by_cases h : d < 16
  · interval_cases d <;> decide
  · have hne : ∀ k : Nat, k < 16 → ¬d = k := by omega
    unfold Nat.digitChar
    rw [if_neg (hne 0 (by norm_num)), if_neg (hne 1 (by norm_num)),
      if_neg (hne 2 (by norm_num)), if_neg (hne 3 (by norm_num)),
      if_neg (hne 4 (by norm_num)), if_neg (hne 5 (by norm_num)),
      if_neg (hne 6 (by norm_num)), if_neg (hne 7 (by norm_num)),
      if_neg (hne 8 (by norm_num)), if_neg (hne 9 (by norm_num)),
      if_neg (hne 10 (by norm_num)), if_neg (hne 11 (by norm_num)),
      if_neg (hne 12 (by norm_num)), if_neg (hne 13 (by norm_num)),
      if_neg (hne 14 (by norm_num)), if_neg (hne 15 (by norm_num))]
    decide

theorem noNL_natRepr (m : Nat) : noNL (Nat.repr m) := by
  intro c hc
  have hdata : (Nat.repr m).data = Nat.toDigits 10 m := rfl
  rw [hdata] at hc
  unfold Nat.toDigits at hc
  rcases toDigitsCore_mem 10 (m + 1) m [] c hc with h | ⟨d, rfl⟩
  · simp at h
  · exact digitChar_ne_newline d

theorem noNL_toString_int (n : Int) : noNL (toString n) := by
  cases n with
  | ofNat m => exact noNL_natRepr m
  | negSucc m =>
    show noNL ("-" ++ Nat.repr (m + 1))
    exact noNL_append (noNLb_iff.mp (by decide)) (noNL_natRepr (m + 1))

theorem toDigitsCore_length (b : Nat) : ∀ (f n : Nat) (acc : List Char),
    acc.length ≤ (Nat.toDigitsCore b f n acc).length
  | 0, n, acc => by
    unfold Nat.toDigitsCore
    exact Nat.le_refl _
  | f + 1, n, acc => by
    unfold Nat.toDigitsCore
    by_cases hq : n / b = 0
    · rw [if_pos hq]
      exact Nat.le_succ_of_le (Nat.le_refl _)
    · rw [if_neg hq]
      exact Nat.le_trans (Nat.le_succ_of_le (Nat.le_refl _))
        (toDigitsCore_length b f (n / b) ((n % b).digitChar :: acc))

theorem toDigits_ne_nil (b n : Nat) : Nat.toDigits b n ≠ [] := by
  unfold Nat.toDigits Nat.toDigitsCore
  by_cases hq : n / b = 0
  · rw [if_pos hq]
    simp
  · rw [if_neg hq]
    apply List.length_pos.mp
    exact Nat.lt_of_lt_of_le (Nat.zero_lt_succ 0)
      (by simpa using toDigitsCore_length b n (n / b) [(n % b).digitChar])

theorem toString_int_data_ne_nil (n : Int) : (toString n).data ≠ [] := by
  cases n with
  | ofNat m =>
    show Nat.toDigits 10 m ≠ []
    exact toDigits_ne_nil 10 m
  | negSucc m =>
    show ("-" ++ Nat.repr (m + 1)).data ≠ []
    rw [String.data_append]
    simp

theorem getLast?_ne_newline_of_noNL {s : String} (h : noNL s) :
    s.data.getLast? ≠ some '\n' := by
  intro hl
  exact h '\n' (List.mem_of_mem_getLast? hl) rfl

theorem joinNL_data_ne_nil : ∀ (parts : List String),
    (∀ p ∈ parts, p ≠ "") → parts ≠ [] → (joinNL parts).data ≠ []
  | [], _, hne => absurd rfl hne
  | [p], h, _ => fun hd => h p (by simp) (data_eq_nil_iff.mp hd)
  | p :: q :: rest, _, _ => by
    show ((p ++ "\n") ++ joinNL (q :: rest)).data ≠ []
    rw [String.data_append, String.data_append]
    simp

theorem getLast?_joinNL : ∀ (parts : List String),
    (∀ p ∈ parts, p ≠ "" ∧ p.data.getLast? ≠ some '\n') →
    (joinNL parts).data.getLast? ≠ some '\n'
  | [], _ => by decide
  | [p], h => (h p (by simp)).2
  | p :: q :: rest, h => by
    have ih := getLast?_joinNL (q :: rest)
      (fun x hx => h x (List.mem_cons_of_mem p hx))
    have hne : (joinNL (q :: rest)).data ≠ [] :=
      joinNL_data_ne_nil (q :: rest) (fun x hx => (h x (List.mem_cons_of_mem p hx)).1)
        (by simp)
    show ((p ++ "\n") ++ joinNL (q :: rest)).data.getLast? ≠ some '\n'
    rw [String.data_append, List.getLast?_append_of_ne_nil _ hne]
    exact ih

theorem front_sub_rawParts {V : Type} (b : QueryBuilder V) :
    ∀ p ∈ b.matchClauses ++ b.whereClauses ++ b.withClauses
        ++ [b.returnClause, b.orderByClause], p ∈ rawParts b := by
  intro p hp
  unfold rawParts
  cases b.skipValue <;> cases b.limitValue <;>
    · simp only [List.append_assoc, List.mem_append, List.mem_cons,
        List.mem_singleton, List.not_mem_nil, or_false] at hp ⊢
      tauto

theorem mem_rawParts {V : Type} {b : QueryBuilder V} {p : String}
    (hp : p ∈ rawParts b) :
    p ∈ b.matchClauses ∨ p ∈ b.whereClauses ∨ p ∈ b.withClauses
    ∨ p = b.returnClause ∨ p = b.orderByClause
    ∨ (∃ n, b.skipValue = some n ∧ p = "SKIP " ++ toString n)
    ∨ (∃ n, b.limitValue = some n ∧ p = "LIMIT " ++ toString n) := by
  unfold rawParts at hp
  cases hs : b.skipValue <;> cases hl : b.limitValue <;> rw [hs, hl] at hp <;>
    simp only [List.append_assoc, List.mem_append, List.mem_cons,
      List.mem_singleton, List.not_mem_nil, or_false, or_assoc] at hp
  · rcases hp with hp | hp | hp | hp | hp
    · exact Or.inl hp
    · exact Or.inr (Or.inl hp)
    · exact Or.inr (Or.inr (Or.inl hp))
    · exact Or.inr (Or.inr (Or.inr (Or.inl hp)))
    · exact Or.inr (Or.inr (Or.inr (Or.inr (Or.inl hp))))
  · rcases hp with hp | hp | hp | hp | hp | hp
    · exact Or.inl hp
    · exact Or.inr (Or.inl hp)
    · exact Or.inr (Or.inr (Or.inl hp))
    · exact Or.inr (Or.inr (Or.inr (Or.inl hp)))
    · exact Or.inr (Or.inr (Or.inr (Or.inr (Or.inl hp))))
    · exact Or.inr (Or.inr (Or.inr (Or.inr (Or.inr (Or.inr ⟨_, rfl, hp⟩)))))
  · rcases hp with hp | hp | hp | hp | hp | hp
    · exact Or.inl hp
    · exact Or.inr (Or.inl hp)
    · exact Or.inr (Or.inr (Or.inl hp))
    · exact Or.inr (Or.inr (Or.inr (Or.inl hp)))
    · exact Or.inr (Or.inr (Or.inr (Or.inr (Or.inl hp))))
    · exact Or.inr (Or.inr (Or.inr (Or.inr (Or.inr (Or.inl ⟨_, rfl, hp⟩)))))
  · rcases hp with hp | hp | hp | hp | hp | hp | hp
    · exact Or.inl hp
    · exact Or.inr (Or.inl hp)
    · exact Or.inr (Or.inr (Or.inl hp))
    · exact Or.inr (Or.inr (Or.inr (Or.inl hp)))
    · exact Or.inr (Or.inr (Or.inr (Or.inr (Or.inl hp))))
    · exact Or.inr (Or.inr (Or.inr (Or.inr (Or.inr (Or.inl ⟨_, rfl, hp⟩)))))
    · exact Or.inr (Or.inr (Or.inr (Or.inr (Or.inr (Or.inr ⟨_, rfl, hp⟩)))))

/-- C4 (corrected): build() never ends with a trailing newline provided
no stored fragment or slot ends with a newline character; the
pagination lines can never end with one. -/
theorem c4_amended_no_trailing_newline (V : Type) (b : QueryBuilder V)
    (hfr : ∀ s ∈ b.matchClauses ++ b.whereClauses ++ b.withClauses
        ++ [b.returnClause, b.orderByClause], s.data.getLast? ≠ some '\n') :
    (QueryBuilder.build b).data.getLast? ≠ some '\n' := by
  rw [build_eq_joinNL]
  apply getLast?_joinNL
  intro p hp
  have hp' := List.mem_filter.mp hp
  refine ⟨by simpa [bne_iff_ne] using hp'.2, ?_⟩
  have hfront : ∀ q : String,
      q ∈ b.matchClauses ∨ q ∈ b.whereClauses ∨ q ∈ b.withClauses
        ∨ q = b.returnClause ∨ q = b.orderByClause →
      q.data.getLast? ≠ some '\n' := by
    intro q hq
    apply hfr q
    simp only [List.append_assoc, List.mem_append, List.mem_cons, List.mem_singleton]
    tauto
  rcases mem_rawParts hp'.1 with h | h | h | h | h | ⟨n, _, rfl⟩ | ⟨n, _, rfl⟩
  · exact hfront p (Or.inl h)
  · exact hfront p (Or.inr (Or.inl h))
  · exact hfront p (Or.inr (Or.inr (Or.inl h)))
  · exact hfront p (Or.inr (Or.inr (Or.inr (Or.inl h))))
  · exact hfront p (Or.inr (Or.inr (Or.inr (Or.inr h))))
  · rw [String.data_append,
      List.getLast?_append_of_ne_nil _ (toString_int_data_ne_nil n)]
    exact getLast?_ne_newline_of_noNL (noNL_toString_int n)
  · rw [String.data_append,
      List.getLast?_append_of_ne_nil _ (toString_int_data_ne_nil n)]
    exact getLast?_ne_newline_of_noNL (noNL_toString_int n)

/-- C4 (counterexample): the state reached by calling union on two
fresh builders is reachable, and its build() result is the string
newline-UNION-newline, which ends with a trailing newline. -/
theorem c4_counterexample_union_of_empties :
    QueryBuilder.build ((emptyQB (V := Nat)).union emptyQB) = "\nUNION\n"
    ∧ (QueryBuilder.build ((emptyQB (V := Nat)).union emptyQB)).data.getLast?
        = some '\n' :=
  ⟨rfl, rfl⟩

theorem c4_witness :
    (QueryBuilder.build ((emptyQB (V := Nat)).matchC "(n)")).data.getLast?
      ≠ some '\n' :=
  c4_amended_no_trailing_newline Nat ((emptyQB (V := Nat)).matchC "(n)") (by decide)

/-- C10: a subquery whose configuration callback adds nothing to the
fresh sub-builder still appends the literal two-character entry to the
match buffer, and the subsequent build() output contains a line
consisting of exactly an opening and a closing parenthesis. -/
theorem c10_empty_subquery_kept (V : Type) (b : QueryBuilder V)
    (cb : QueryBuilder V → QueryBuilder V) (hcb : cb emptyQB = emptyQB) :
    (b.subquery cb).matchClauses = b.matchClauses ++ ["()"]
    ∧ ("()" : String).data ∈ splitNL ((b.subquery cb).build).data := by
  have hfrag : ("(" ++ (cb emptyQB).build ++ ")") = "()" := by rw [hcb]; rfl
  have hm : (b.subquery cb).matchClauses = b.matchClauses ++ ["()"] := by
    show b.matchClauses ++ ["(" ++ (cb emptyQB).build ++ ")"] = _
    rw [hfrag]
  refine ⟨hm, ?_⟩
  apply mem_splitNL_build (b := b.subquery cb)
  · apply List.mem_filter.mpr
    refine ⟨?_, by decide⟩
    apply front_sub_rawParts
    rw [hm]
    simp
  · exact noNLb_iff.mp (by decide)

theorem c10_witness :
    ((emptyQB (V := Nat)).subquery (fun q => q)).matchClauses
      = (emptyQB (V := Nat)).matchClauses ++ ["()"] :=
  (c10_empty_subquery_kept Nat emptyQB (fun q => q) rfl).1

theorem c8_witness :
    ((getParametersH (⟨[[("a", 1)]]⟩ : PStore Nat) ⟨emptyQB, 0⟩).2).getObj
        ((getParametersH (⟨[[("a", 1)]]⟩ : PStore Nat) ⟨emptyQB, 0⟩).1)
      = (⟨[[("a", 1)]]⟩ : PStore Nat).getObj (⟨emptyQB, 0⟩ : RefBuilder Nat).paddr :=
  (c8_getParameters_returns_copy Nat ⟨[[("a", 1)]]⟩ ⟨emptyQB, 0⟩ (by decide)).1

theorem splitNL_append_single {c : Char} (hc : c ≠ '\n') : ∀ xs : List Char,
    splitNL (xs ++ [c])
      = (splitNL xs).dropLast ++ [((splitNL xs).getLast?.getD []) ++ [c]]
  | [] => by
    rw [List.nil_append, splitNL_cons_of_ne hc (show splitNL [] = [] :: [] from rfl)]
    rfl
  | a :: ls => by
    by_cases ha : a = '\n'
    · subst ha
      rw [List.cons_append, splitNL_cons_newline, splitNL_append_single hc ls,
        splitNL_cons_newline]
      obtain ⟨s0, S', hS⟩ := splitNL_surjOn ls
      rw [hS, List.dropLast_cons₂, List.getLast?_cons_cons, List.cons_append]
    · obtain ⟨s0, S', hS⟩ := splitNL_surjOn ls
      cases S' with
      | nil =>
        have h1 : splitNL (ls ++ [c]) = (s0 ++ [c]) :: [] := by
          rw [splitNL_append_single hc ls, hS]
          rfl
        rw [List.cons_append, splitNL_cons_of_ne ha h1, splitNL_cons_of_ne ha hS]
        simp
      | cons s1 S2 =>
        have h1 : splitNL (ls ++ [c])
            = s0 :: ((s1 :: S2).dropLast
                ++ [((s1 :: S2).getLast?.getD []) ++ [c]]) := by
          rw [splitNL_append_single hc ls, hS, List.dropLast_cons₂,
            List.getLast?_cons_cons, List.cons_append]
        rw [List.cons_append, splitNL_cons_of_ne ha h1, splitNL_cons_of_ne ha hS,
          List.dropLast_cons₂, List.getLast?_cons_cons, List.cons_append]

theorem head_data_append (s t : String) (c : Char) (h : s.data.head? = some c) :
    (s ++ t).data.head? = some c := by
  rw [String.data_append]
  cases hs : s.data with
  | nil => rw [hs] at h; exact absurd h (by simp)
  | cons a l =>
    rw [hs] at h
    rw [List.cons_append]
    simpa using h

theorem linesAvoid_single {ch : Char} {s : String} (hnl : noNL s)
    (hh : s.data.head? ≠ some ch) : linesAvoid ch s := by
  intro l hl
  rw [splitNL_noNL hnl, List.mem_singleton] at hl
  subst hl
  exact hh

theorem linesAvoid_kwfrag {ch : Char} (kw arg : String) (c : Char)
    (hkwnl : noNL kw) (hargnl : noNL arg) (hh : kw.data.head? = some c)
    (hne : c ≠ ch) : linesAvoid ch (kw ++ arg) := by
  apply linesAvoid_single (noNL_append hkwnl hargnl)
  rw [head_data_append kw arg c hh]
  simp [hne]

theorem linesAvoid_empty (ch : Char) : linesAvoid ch "" := by
  intro l hl
  have : l = [] := by simpa [splitNL] using hl
  subst this
  simp

theorem linesAvoid_wrap {ch : Char} (s : String) (hch1 : ch ≠ '(') (hch2 : ch ≠ ')')
    (h : linesAvoid ch s) : linesAvoid ch ("(" ++ s ++ ")") := by
  intro l hl
  have hdata : ("(" ++ s ++ ")").data = '(' :: (s.data ++ [')']) := by
    rw [String.data_append, String.data_append]
    rfl
  rw [hdata] at hl
  obtain ⟨r, rs, hr⟩ := splitNL_surjOn (s.data ++ [')'])
  rw [splitNL_cons_of_ne (by decide) hr] at hl
  have hstruct := splitNL_append_single (c := ')') (by decide) s.data
  rcases List.mem_cons.mp hl with rfl | hl
  · simp [Ne.symm hch1]
  · have hl2 : l ∈ splitNL (s.data ++ [')']) := by
      rw [hr]; exact List.mem_cons_of_mem r hl
    rw [hstruct] at hl2
    rcases List.mem_append.mp hl2 with hl3 | hl3
    · exact h l (List.dropLast_subset _ hl3)
    · rw [List.mem_singleton] at hl3
      subst hl3
      obtain ⟨r0, rs0, hr0⟩ := splitNL_surjOn s.data
      have hlast : (splitNL s.data).getLast?.getD [] ∈ splitNL s.data := by
        apply List.mem_of_mem_getLast?
        rw [hr0]
        cases h9 : (r0 :: rs0).getLast? with
        | none => exact absurd h9 (by simp)
        | some y => simp
      cases hL : (splitNL s.data).getLast?.getD [] with
      | nil => simp [Ne.symm hch2]
      | cons x xs =>
        rw [List.cons_append, List.head?_cons]
        rw [hL] at hlast
        have := h _ hlast
        rw [List.head?_cons] at this
        exact this

theorem linesAvoid_glue {ch : Char} (a u m : String)
    (hm : noNL m) (hmh : m.data.head? ≠ some ch)
    (ha : linesAvoid ch a) (hu : linesAvoid ch u) :
    linesAvoid ch (a ++ ("\n" ++ m ++ "\n") ++ u) := by
  intro l hl
  have hnl : ("\n" : String).data = ['\n'] := rfl
  have hdata : (a ++ ("\n" ++ m ++ "\n") ++ u).data
      = a.data ++ '\n' :: (m.data ++ '\n' :: u.data) := by
    simp [String.data_append, hnl]
  rw [hdata, splitNL_append_newline, splitNL_append_newline] at hl
  rcases List.mem_append.mp hl with hl | hl
  · exact ha l hl
  rcases List.mem_append.mp hl with hl | hl
  · rw [splitNL_noNL hm, List.mem_singleton] at hl
    subst hl
    exact hmh
  · exact hu l hl

theorem emptyQB_avoidInv {V : Type} (ch : Char) : (emptyQB (V := V)).avoidInv ch := by
  refine ⟨?_, ?_, ?_, linesAvoid_empty ch, linesAvoid_empty ch, fun _ => rfl, fun _ => rfl⟩
    <;> intro s hs <;> simp [emptyQB] at hs

theorem lines_build_subset {V : Type} (b : QueryBuilder V) :
    ∀ l ∈ splitNL (b.build).data,
      l = [] ∨ ∃ p ∈ buildParts b, l ∈ splitNL p.data := by
  intro l hl
  rw [build_eq_joinNL] at hl
  cases hbp : buildParts b with
  | nil =>
    rw [hbp] at hl
    have : l = [] := by simpa [joinNL, splitNL] using hl
    exact Or.inl this
  | cons p ps =>
    rw [hbp, splitNL_joinNL (p :: ps) (by simp)] at hl
    obtain ⟨q, hq, hlq⟩ := List.mem_flatMap.mp hl
    exact Or.inr ⟨q, hbp ▸ hq, hlq⟩

theorem build_linesAvoid {V : Type} {ch : Char} {b : QueryBuilder V}
    (hinv : b.avoidInv ch) : linesAvoid ch (b.build) := by
  obtain ⟨h1, h2, h3, h4, h5, h6, h7⟩ := hinv
  intro l hl
  rcases lines_build_subset b l hl with rfl | ⟨p, hp, hlp⟩
  · simp
  have hpr := (List.mem_filter.mp hp).1
  rcases mem_rawParts hpr with h | h | h | h | h | ⟨n, hn, rfl⟩ | ⟨n, hn, rfl⟩
  · exact h1 p h l hlp
  · exact h2 p h l hlp
  · exact h3 p h l hlp
  · rw [h] at hlp
    exact h4 l hlp
  · rw [h] at hlp
    exact h5 l hlp
  · have hnlp : noNL ("SKIP " ++ toString n) :=
      noNL_append (noNLb_iff.mp (by decide)) (noNL_toString_int n)
    rw [splitNL_noNL hnlp, List.mem_singleton] at hlp
    subst hlp
    rw [head_data_append "SKIP " (toString n) 'S' rfl]
    intro heq
    have hch : ch = 'S' := by simpa using heq.symm
    rw [h6 hch] at hn
    exact absurd hn (by simp)
  · have hnlp : noNL ("LIMIT " ++ toString n) :=
      noNL_append (noNLb_iff.mp (by decide)) (noNL_toString_int n)
    rw [splitNL_noNL hnlp, List.mem_singleton] at hlp
    subst hlp
    rw [head_data_append "LIMIT " (toString n) 'L' rfl]
    intro heq
    have hch : ch = 'L' := by simpa using heq.symm
    rw [h7 hch] at hn
    exact absurd hn (by simp)

theorem skip_mem_rawParts {V : Type} (b : QueryBuilder V) (n : Int)
    (h : b.skipValue = some n) : ("SKIP " ++ toString n) ∈ rawParts b := by
  unfold rawParts
  rw [h]
  cases b.limitValue <;> simp

theorem limit_mem_rawParts {V : Type} (b : QueryBuilder V) (n : Int)
    (h : b.limitValue = some n) : ("LIMIT " ++ toString n) ∈ rawParts b := by
  unfold rawParts
  rw [h]
  cases b.skipValue <;> simp

theorem avoidInv_single_entry {V : Type} {ch : Char} (x : String)
    (params : List (String × V)) (hx : linesAvoid ch x) :
    (⟨[x], [], [], "", "", none, none, params⟩ : QueryBuilder V).avoidInv ch := by
  refine ⟨?_, ?_, ?_, linesAvoid_empty ch, linesAvoid_empty ch, fun _ => rfl, fun _ => rfl⟩
  · intro s hs
    rw [show (⟨[x], [], [], "", "", none, none, params⟩ : QueryBuilder V).matchClauses
        = [x] from rfl, List.mem_singleton] at hs
    exact hs ▸ hx
  · intro s hs
    simp at hs
  · intro s hs
    simp at hs

theorem avoidInv_with_match {V : Type} {ch : Char} {b : QueryBuilder V}
    (hb : b.avoidInv ch) {f : String} (hf : linesAvoid ch f)
    (params : List (String × V)) :
    ({ b with matchClauses := b.matchClauses ++ [f], parameters := params }
      : QueryBuilder V).avoidInv ch := by
  obtain ⟨h1, h2, h3, h4, h5, h6, h7⟩ := hb
  refine ⟨?_, h2, h3, h4, h5, h6, h7⟩
  intro t ht
  rcases List.mem_append.mp ht with ht | ht
  · exact h1 t ht
  · rw [List.mem_singleton] at ht
    exact ht ▸ hf

theorem avoidInv_with_where {V : Type} {ch : Char} {b : QueryBuilder V}
    (hb : b.avoidInv ch) {f : String} (hf : linesAvoid ch f) :
    ({ b with whereClauses := b.whereClauses ++ [f] } : QueryBuilder V).avoidInv ch := by
  obtain ⟨h1, h2, h3, h4, h5, h6, h7⟩ := hb
  refine ⟨h1, ?_, h3, h4, h5, h6, h7⟩
  intro t ht
  rcases List.mem_append.mp ht with ht | ht
  · exact h2 t ht
  · rw [List.mem_singleton] at ht
    exact ht ▸ hf

theorem avoidInv_with_with {V : Type} {ch : Char} {b : QueryBuilder V}
    (hb : b.avoidInv ch) {f : String} (hf : linesAvoid ch f) :
    ({ b with withClauses := b.withClauses ++ [f] } : QueryBuilder V).avoidInv ch := by
  obtain ⟨h1, h2, h3, h4, h5, h6, h7⟩ := hb
  refine ⟨h1, h2, ?_, h4, h5, h6, h7⟩
  intro t ht
  rcases List.mem_append.mp ht with ht | ht
  · exact h3 t ht
  · rw [List.mem_singleton] at ht
    exact ht ▸ hf

theorem avoidInv_set_return {V : Type} {ch : Char} {b : QueryBuilder V}
    (hb : b.avoidInv ch) {f : String} (hf : linesAvoid ch f) :
    ({ b with returnClause := f } : QueryBuilder V).avoidInv ch :=
  ⟨hb.1, hb.2.1, hb.2.2.1, hf, hb.2.2.2.2.1, hb.2.2.2.2.2.1, hb.2.2.2.2.2.2⟩

theorem avoidInv_set_orderBy {V : Type} {ch : Char} {b : QueryBuilder V}
    (hb : b.avoidInv ch) {f : String} (hf : linesAvoid ch f) :
    ({ b with orderByClause := f } : QueryBuilder V).avoidInv ch :=
  ⟨hb.1, hb.2.1, hb.2.2.1, hb.2.2.2.1, hf, hb.2.2.2.2.2.1, hb.2.2.2.2.2.2⟩

theorem avoidInv_runCalls {V : Type} {ch : Char} (hch : ch = 'S' ∨ ch = 'L') :
    ∀ (cs : List (Call V)) (b : QueryBuilder V),
      avoidsList ch cs = true → b.avoidInv ch → (runCalls b cs).avoidInv ch
  | [], _b, _hcs, hb => hb
  | c :: rest, b, hcs, hb => by
    have hcs' : c.avoids ch = true ∧ avoidsList ch rest = true := by
      simpa [avoidsList, Bool.and_eq_true] using hcs
    refine avoidInv_runCalls hch rest (applyCall b c) hcs'.2 ?_
    cases c with
    | cMatch p =>
      have harg : noNL p := noNLb_iff.mp (by simpa [Call.avoids] using hcs'.1)
      exact avoidInv_with_match hb
        (linesAvoid_kwfrag "MATCH " p 'M' (noNLb_iff.mp (by decide)) harg rfl
          (by rcases hch with rfl | rfl <;> decide)) b.parameters
    | cOptionalMatch p =>
      have harg : noNL p := noNLb_iff.mp (by simpa [Call.avoids] using hcs'.1)
      exact avoidInv_with_match hb
        (linesAvoid_kwfrag "OPTIONAL MATCH " p 'O' (noNLb_iff.mp (by decide)) harg rfl
          (by rcases hch with rfl | rfl <;> decide)) b.parameters
    | cWhere s =>
      have harg : noNL s := noNLb_iff.mp (by simpa [Call.avoids] using hcs'.1)
      exact avoidInv_with_where hb
        (linesAvoid_kwfrag "WHERE " s 'W' (noNLb_iff.mp (by decide)) harg rfl
          (by rcases hch with rfl | rfl <;> decide))
    | cAndWhere s =>
      have harg : noNL s := noNLb_iff.mp (by simpa [Call.avoids] using hcs'.1)
      show (b.andWhere s).avoidInv ch
      unfold QueryBuilder.andWhere
      split
      · exact avoidInv_with_where hb
          (linesAvoid_kwfrag "WHERE " s 'W' (noNLb_iff.mp (by decide)) harg rfl
            (by rcases hch with rfl | rfl <;> decide))
      · exact avoidInv_with_where hb
          (linesAvoid_kwfrag "AND " s 'A' (noNLb_iff.mp (by decide)) harg rfl
            (by rcases hch with rfl | rfl <;> decide))
    | cOrWhere s =>
      have harg : noNL s := noNLb_iff.mp (by simpa [Call.avoids] using hcs'.1)
      show (b.orWhere s).avoidInv ch
      unfold QueryBuilder.orWhere
      split
      · exact avoidInv_with_where hb
          (linesAvoid_kwfrag "WHERE " s 'W' (noNLb_iff.mp (by decide)) harg rfl
            (by rcases hch with rfl | rfl <;> decide))
      · exact avoidInv_with_where hb
          (linesAvoid_kwfrag "OR " s 'O' (noNLb_iff.mp (by decide)) harg rfl
            (by rcases hch with rfl | rfl <;> decide))
    | cWith s =>
      have harg : noNL s := noNLb_iff.mp (by simpa [Call.avoids] using hcs'.1)
      exact avoidInv_with_with hb
        (linesAvoid_kwfrag "WITH " s 'W' (noNLb_iff.mp (by decide)) harg rfl
          (by rcases hch with rfl | rfl <;> decide))
    | cReturn s =>
      have harg : noNL s := noNLb_iff.mp (by simpa [Call.avoids] using hcs'.1)
      exact avoidInv_set_return hb
        (linesAvoid_kwfrag "RETURN " s 'R' (noNLb_iff.mp (by decide)) harg rfl
          (by rcases hch with rfl | rfl <;> decide))
    | cOrderBy s =>
      have harg : noNL s := noNLb_iff.mp (by simpa [Call.avoids] using hcs'.1)
      exact avoidInv_set_orderBy hb
        (linesAvoid_kwfrag "ORDER BY " s 'O' (noNLb_iff.mp (by decide)) harg rfl
          (by rcases hch with rfl | rfl <;> decide))
    | cSkip n =>
      have hne : ch ≠ 'S' := by
        have := hcs'.1
        simp only [Call.avoids, bne_iff_ne] at this
        exact this
      obtain ⟨h1, h2, h3, h4, h5, _h6, h7⟩ := hb
      exact ⟨h1, h2, h3, h4, h5, fun hEq => absurd hEq hne, h7⟩
    | cLimit n =>
      have hne : ch ≠ 'L' := by
        have := hcs'.1
        simp only [Call.avoids, bne_iff_ne] at this
        exact this
      obtain ⟨h1, h2, h3, h4, h5, h6, _h7⟩ := hb
      exact ⟨h1, h2, h3, h4, h5, h6, fun hEq => absurd hEq hne⟩
    | cSetParameter k v =>
      obtain ⟨h1, h2, h3, h4, h5, h6, h7⟩ := hb
      exact ⟨h1, h2, h3, h4, h5, h6, h7⟩
    | cClear => exact emptyQB_avoidInv ch
    | cSubquery sub =>
      have hsub : avoidsList ch sub = true := by simpa [Call.avoids] using hcs'.1
      have hsubInv := avoidInv_runCalls hch sub emptyQB hsub (emptyQB_avoidInv ch)
      exact avoidInv_with_match hb
        (linesAvoid_wrap _ (by rcases hch with rfl | rfl <;> decide)
          (by rcases hch with rfl | rfl <;> decide) (build_linesAvoid hsubInv)) _
    | cUnion other =>
      have hother : avoidsList ch other = true := by simpa [Call.avoids] using hcs'.1
      have hoInv := avoidInv_runCalls hch other emptyQB hother (emptyQB_avoidInv ch)
      exact avoidInv_single_entry _ _
        (linesAvoid_glue (b.build) ((runCalls emptyQB other).build) "UNION"
          (noNLb_iff.mp (by decide)) (by rcases hch with rfl | rfl <;> decide)
          (build_linesAvoid hb) (build_linesAvoid hoInv))
    | cUnionAll other =>
      have hother : avoidsList ch other = true := by simpa [Call.avoids] using hcs'.1
      have hoInv := avoidInv_runCalls hch other emptyQB hother (emptyQB_avoidInv ch)
      exact avoidInv_single_entry _ _
        (linesAvoid_glue (b.build) ((runCalls emptyQB other).build) "UNION ALL"
          (noNLb_iff.mp (by decide)) (by rcases hch with rfl | rfl <;> decide)
          (build_linesAvoid hb) (build_linesAvoid hoInv))
termination_by cs _b _hcs _hb => sizeOf cs

/-- C9 (corrected): after skip(n), also for n = 0, the output of build()
contains the SKIP line for n, and likewise for limit; and for every
builder reachable by a call sequence that never calls skip (never
calls limit) and supplies only newline-free fragment arguments —
including inside subquery and union operands, and allowing clear — no
SKIP (no LIMIT) line appears in the output, so absence of a pagination
value is distinguished from the value zero. -/
theorem c9_pagination_lines (V : Type) (b : QueryBuilder V) (n : Int) :
    ("SKIP " ++ toString n).data ∈ splitNL ((b.skip n).build).data
    ∧ ("LIMIT " ++ toString n).data ∈ splitNL ((b.limit n).build).data
    ∧ (∀ cs : List (Call V), avoidsList 'S' cs = true →
        ∀ m : Int,
          ("SKIP " ++ toString m).data ∉ splitNL ((runCalls emptyQB cs).build).data)
    ∧ (∀ cs : List (Call V), avoidsList 'L' cs = true →
        ∀ m : Int,
          ("LIMIT " ++ toString m).data ∉ splitNL ((runCalls emptyQB cs).build).data) := by
  refine ⟨?_, ?_, ?_, ?_⟩
  · apply mem_splitNL_build
    · apply List.mem_filter.mpr
      refine ⟨skip_mem_rawParts (b.skip n) n rfl, ?_⟩
      exact bne_iff_ne.mpr (append_ne_empty_left _ (by decide))
    · exact noNL_append (noNLb_iff.mp (by decide)) (noNL_toString_int n)
  · apply mem_splitNL_build
    · apply List.mem_filter.mpr
      refine ⟨limit_mem_rawParts (b.limit n) n rfl, ?_⟩
      exact bne_iff_ne.mpr (append_ne_empty_left _ (by decide))
    · exact noNL_append (noNLb_iff.mp (by decide)) (noNL_toString_int n)
  · intro cs hcs m hmem
    have hinv := avoidInv_runCalls (Or.inl rfl) cs emptyQB hcs (emptyQB_avoidInv 'S')
    have := build_linesAvoid hinv _ hmem
    rw [head_data_append "SKIP " (toString m) 'S' rfl] at this
    exact this rfl
  · intro cs hcs m hmem
    have hinv := avoidInv_runCalls (Or.inr rfl) cs emptyQB hcs (emptyQB_avoidInv 'L')
    have := build_linesAvoid hinv _ hmem
    rw [head_data_append "LIMIT " (toString m) 'L' rfl] at this
    exact this rfl

/-- C9 (counterexample): a builder on which skip was never called (its
pagination slot is still unset) can nevertheless print a SKIP line,
because a caller-supplied match pattern containing a newline forges
one. -/
theorem c9_counterexample_forged_skip_line :
    ((emptyQB (V := Nat)).matchC "x\nSKIP 0").skipValue = none
    ∧ ("SKIP " ++ toString (0 : Int)).data
        ∈ splitNL (((emptyQB (V := Nat)).matchC "x\nSKIP 0").build).data :=
  ⟨rfl, by decide⟩

theorem c9_witness :
    ("SKIP " ++ toString (0 : Int)).data
      ∉ splitNL ((runCalls (emptyQB (V := Nat)) [Call.cMatch "(n)"]).build).data :=
  (c9_pagination_lines Nat emptyQB 0).2.2.1 [Call.cMatch "(n)"] (by decide) 0
